import Mathlib

/-!
Verification of the `measure` unit-conversion engine.

This file is a shallow embedding of the core of the package
(`measure/measure.py`, `measure/dynamic.py`, `measure/linear.py`,
`measure/_util.py`) together with proofs about it.

Conventions of the embedding:

* Python `float`/`Real` amounts and coefficients are modelled as `ℚ`
  (exact rational arithmetic; the package performs no float-specific
  operation the claims depend on).
* Python object identity is modelled structurally: a `BasicMeasure`
  object is identified by a natural-number id, and its mutable unit
  table is threaded explicitly (`UnitTable`, `Env`).  Two measures are
  "identical" exactly when their canonical representations are equal.
* Python exceptions are modelled with `Except`; the sentinel
  `NotImplemented` returned by binary operators is a distinguished
  constructor (`notImpl` / `none`), separate from raised errors.
* Unboundedly recursive Python code (alias chains, grammar loops) is
  modelled with an explicit fuel parameter; exhausting fuel yields
  `recursionErr`, the analogue of Python's `RecursionError`.
-/

/-- Python exception values distinguished by the code under study. -/
inductive PyErr where
  | typeErr (msg : String)
  | keyErr (msg : String)
  | valueErr (msg : String)
  | attrErr (msg : String)
  | recursionErr
deriving DecidableEq, Repr

/-- Greedy span: longest take of characters satisfying `p`, and the rest.
Mirrors the behaviour of a greedy character class in the `re` patterns. -/
def spanP (p : Char → Bool) : List Char → List Char × List Char
  | [] => ([], [])
  | c :: rest =>
    if p c then
      let (t, r) := spanP p rest
      (c :: t, r)
    else ([], c :: rest)

/-- Decimal digit string to a natural number. -/
def digitsToNat (ds : List Char) : ℕ :=
  ds.foldl (fun a c => 10 * a + (c.toNat - 48)) 0

@[simp] theorem toNat_c0 : ('0').toNat = 48 := rfl

@[simp] theorem toNat_c1 : ('1').toNat = 49 := rfl

@[simp] theorem toNat_c2 : ('2').toNat = 50 := rfl

@[simp] theorem toNat_c3 : ('3').toNat = 51 := rfl

@[simp] theorem toNat_c4 : ('4').toNat = 52 := rfl

@[simp] theorem toNat_c5 : ('5').toNat = 53 := rfl

@[simp] theorem toNat_c6 : ('6').toNat = 54 := rfl

@[simp] theorem toNat_c7 : ('7').toNat = 55 := rfl

@[simp] theorem toNat_c8 : ('8').toNat = 56 := rfl

@[simp] theorem toNat_c9 : ('9').toNat = 57 := rfl

/-- Characters matched by `\s` in the `re` patterns. -/
def wsChar (c : Char) : Bool :=
  c == ' ' || c == '\t' || c == '\n' || c == '\r' || c == '\x0b' || c == '\x0c'

/-- Outcome of `_util.split_amount_args`: the regex does not match (the
caller keeps its default), the float conversion raises `ValueError`
(a sign/comma/dot-only match), or a leading amount plus the remaining
unit token. -/
inductive SplitRes where
  | noMatch
  | floatErr
  | found (amount : ℚ) (rest : String)
deriving DecidableEq, Repr

/-- The optional exponent suffix `([eE][-+]?[0-9]+)?` of the float group.
Returns the exponent value and the remaining input; when the suffix is
not present (no digits after `e`), nothing is consumed. -/
def parseExpSuffix (cs : List Char) : ℤ × List Char :=
  match cs with
  | 'e' :: rest =>
    let (sgn, r1) : ℤ × List Char :=
      match rest with
      | '-' :: r => (-1, r)
      | '+' :: r => (1, r)
      | r => (1, r)
    let (ds, r2) := spanP Char.isDigit r1
    if ds.isEmpty then (0, cs) else (sgn * digitsToNat ds, r2)
  | 'E' :: rest =>
    let (sgn, r1) : ℤ × List Char :=
      match rest with
      | '-' :: r => (-1, r)
      | '+' :: r => (1, r)
      | r => (1, r)
    let (ds, r2) := spanP Char.isDigit r1
    if ds.isEmpty then (0, cs) else (sgn * digitsToNat ds, r2)
  | cs => (0, cs)

/-- `_util.split_amount_args`: full match of
`(?P<float>[-+]?[0-9,]*(\.[0-9]*)?([eE][-+]?[0-9]+)?)\s+(?P<meas>.*)`
with a nonempty float group, converted via `float(x.replace(',', ''))`. -/
def splitAmountList (cs : List Char) : SplitRes :=
  let (sgn, r1) : ℚ × List Char :=
    match cs with
    | '-' :: r => (-1, r)
    | '+' :: r => (1, r)
    | r => (1, r)
  let (intPart, r2) := spanP (fun c => c.isDigit || c == ',') r1
  let (fracPart, r3) : List Char × List Char :=
    match r2 with
    | '.' :: r => spanP Char.isDigit r
    | r => ([], r)
  let (e, r4) := parseExpSuffix r3
  let (ws, r5) := spanP wsChar r4
  let intDigits := intPart.filter Char.isDigit
  if ws.isEmpty then .noMatch
  else if r4.length = cs.length then .noMatch
  else if intDigits.isEmpty ∧ fracPart.isEmpty then .floatErr
  else
    let mant : ℚ := (digitsToNat intDigits : ℚ) + (digitsToNat fracPart : ℚ) / 10 ^ fracPart.length
    .found (sgn * mant * (10 : ℚ) ^ e) (String.mk r5)

/-- `split_amount_args` on a string argument. -/
def splitAmountArgs (s : String) : SplitRes := splitAmountList s.toList

/-- One value of a `BasicMeasure` unit table: a plain coefficient, an
alias to another unit name, or a `(coefficient, alias)` pair. -/
inductive Entry where
  | coeff (c : ℚ)
  | ualias (u : String)
  | upair (c : ℚ) (u : String)
deriving DecidableEq, Repr

/-- The `_dict` of a `BasicMeasure`, in insertion order. -/
abbrev UnitTable := List (String × Entry)

/-- Dict lookup on a unit table. -/
def tableFind : UnitTable → String → Option Entry
  | [], _ => none
  | (k, v) :: rest, item => if k = item then some v else tableFind rest item

/-- `BasicMeasure.__setitem__`: replace in place or append. -/
def setUnit : UnitTable → String → Entry → UnitTable
  | [], k, v => [(k, v)]
  | (k', v') :: rest, k, v =>
    if k' = k then (k, v) :: rest else (k', v') :: setUnit rest k v

/-- `BasicMeasure.__getitem__` for a string key: split off a leading
amount, then resolve the table entry, chasing aliases recursively. -/
def basicGet (fuel : ℕ) (t : UnitTable) (item : String) : Except PyErr ℚ :=
  if fuel = 0 then .error .recursionErr
  else
    match splitAmountArgs item with
    | .floatErr => .error (.valueErr "could not convert string to float")
    | .found a rest => (basicGet (fuel - 1) t rest).map (fun c => a * c)
    | .noMatch =>
      match tableFind t item with
      | none => .error (.keyErr item)
      | some (.coeff c) => .ok c
      | some (.ualias u) => basicGet (fuel - 1) t u
      | some (.upair a u) => (basicGet (fuel - 1) t u).map (fun c => a * c)
termination_by fuel
decreasing_by all_goals omega

/-- `basicGet` with the standard fuel. -/
def basicGetF (t : UnitTable) (item : String) : Except PyErr ℚ := basicGet 1000 t item

/-- `MutableMeasure.optimize_aliases`: walk the keys in insertion order
and replace every non-numeric entry with its resolved coefficient,
reading through the partially updated table. -/
def optimizeKeys : List String → UnitTable → Except PyErr UnitTable
  | [], t => .ok t
  | k :: ks, t =>
    match tableFind t k with
    | some (.coeff _) => optimizeKeys ks t
    | some _ =>
      match basicGetF t k with
      | .ok c => optimizeKeys ks (setUnit t k (.coeff c))
      | .error e => .error e
    | none => optimizeKeys ks t

/-- `optimize_aliases` on a table. -/
def optimizeAliases (t : UnitTable) : Except PyErr UnitTable :=
  optimizeKeys (t.map Prod.fst) t

/-- The tables of all live `BasicMeasure` objects, by object id. -/
abbrev Env := ℕ → UnitTable

example : splitAmountArgs "3 pog" = .found 3 "pog" := by
  norm_num +decide [splitAmountArgs, splitAmountList, parseExpSuffix, spanP, digitsToNat]

example : splitAmountArgs "gold" = .noMatch := by
  norm_num +decide [splitAmountArgs, splitAmountList, parseExpSuffix, spanP, digitsToNat]

example : splitAmountArgs "-1.2e3 mm" = .found (-1200) "mm" := by
  norm_num +decide [splitAmountArgs, splitAmountList, parseExpSuffix, spanP, digitsToNat]

example : splitAmountArgs "25 C" = .found 25 "C" := by
  norm_num +decide [splitAmountArgs, splitAmountList, parseExpSuffix, spanP, digitsToNat]

example : splitAmountArgs "- x" = .floatErr := by
  norm_num +decide [splitAmountArgs, splitAmountList, parseExpSuffix, spanP, digitsToNat]

example : basicGetF [("meter", .coeff 1), ("km", .ualias "kilometer"),
    ("kilometer", .coeff 1000)] "3 km" = .ok 3000 := by
  norm_num +decide [basicGetF, basicGet, splitAmountArgs, splitAmountList,
    parseExpSuffix, spanP, digitsToNat, tableFind, Except.map]

/-- A primitive-exponent map (`Counter` of `BasicMeasure` ids), as an
association list in insertion order.  Exponents are rationals because
`root` divides them with true division. -/
abbrev PMap := List (ℕ × ℚ)

/-- `Counter.get(k, 0)`. -/
def getD : PMap → ℕ → ℚ
  | [], _ => 0
  | (k, v) :: rest, i => if k = i then v else getD rest i

/-- The keys of a primitive map. -/
def keysL (l : PMap) : List ℕ := l.map Prod.fst

/-- The loop of `_combine_maps`: for each key in order, skip keys already
assigned, evaluate the combining function, drop results equal to the
default `0`. -/
def combineAux (g : ℕ → ℚ) : List ℕ → PMap → PMap
  | [], ret => ret
  | k :: ks, ret =>
    if k ∈ keysL ret then combineAux g ks ret
    else if g k ≠ 0 then combineAux g ks (ret ++ [(k, g k)])
    else combineAux g ks ret

/-- `_combine_maps(func, m1, m2)`. -/
def combine2 (f : ℚ → ℚ → ℚ) (m1 m2 : PMap) : PMap :=
  combineAux (fun k => f (getD m1 k) (getD m2 k)) (keysL m1 ++ keysL m2) []

/-- `_combine_maps(func, m)` (one map). -/
def combine1 (f : ℚ → ℚ) (m : PMap) : PMap :=
  combineAux (fun k => f (getD m k)) (keysL m) []

/-- Order used to canonicalise a primitive map (sorted by key). -/
def keyLe (a b : ℕ × ℚ) : Prop := a.1 ≤ b.1

/-- Strict version of `keyLe`. -/
def keyLt (a b : ℕ × ℚ) : Prop := a.1 < b.1

instance : DecidableRel keyLe := fun a b => by unfold keyLe; infer_instance

instance : IsTotal (ℕ × ℚ) keyLe where
  total a b := Nat.le_total a.1 b.1

instance : IsTrans (ℕ × ℚ) keyLe where
  trans _ _ _ h1 h2 := Nat.le_trans h1 h2

instance : IsAntisymm (ℕ × ℚ) keyLt where
  antisymm _ _ h1 h2 := absurd (Nat.lt_trans h1 h2) (Nat.lt_irrefl _)

/-- Canonical representation of the `frozenset` of `Counter.items()`
used as the interning key in `DerivedMeasure.__new__`: duplicates
removed, entries sorted by primitive id. -/
def canonSort (l : PMap) : PMap := List.insertionSort keyLe l.dedup

/-- The Python-side value of a measure expression, after the collapses
performed by `DerivedMeasure.__new__`: the `ScalarMeasure` singleton,
a `BasicMeasure` object (by id), or an interned `DerivedMeasure`
holding a canonicalised primitive map. -/
inductive MeasureVal where
  | scalar
  | basic (b : ℕ)
  | derived (parts : PMap)
deriving DecidableEq, Repr

/-- `DerivedMeasure.__new__`: an empty map collapses to `ScalarMeasure`,
a single entry of exponent `1` collapses to that `BasicMeasure`, and
otherwise the canonical interned instance for the map is produced. -/
def mkDerived (parts : PMap) : MeasureVal :=
  match canonSort parts with
  | [] => .scalar
  | [(b, e)] => if e = 1 then .basic b else .derived [(b, e)]
  | l => .derived l

/-- `__primitives__`: empty for scalar, `{self: 1}` for a basic measure,
the stored parts for a derived measure. -/
def primitivesOf : MeasureVal → PMap
  | .scalar => []
  | .basic b => [(b, 1)]
  | .derived parts => parts

/-- `Measure.__mul__`: combine primitive maps by exponent addition. -/
def Measure.mul (a b : MeasureVal) : MeasureVal :=
  mkDerived (combine2 (fun x y => x + y) (primitivesOf a) (primitivesOf b))

/-- `Measure.__truediv__`: combine primitive maps by exponent subtraction. -/
def Measure.div (a b : MeasureVal) : MeasureVal :=
  mkDerived (combine2 (fun x y => x - y) (primitivesOf a) (primitivesOf b))

/-- `root` as dispatched over the three measure classes:
`ScalarMeasure.root` returns `self`; `BasicMeasure.root` only accepts
`1`; `DerivedMeasure.root` requires each exponent to be exactly
divisible by `r` (`n % r == 0`) and divides the map by `r`. -/
def Measure.root : MeasureVal → ℤ → Except String MeasureVal
  | .scalar, _ => .ok .scalar
  | .basic b, r =>
    if r = 1 then .ok (.basic b) else .error "cannot get root of primitive unit"
  | .derived parts, r =>
    if r = 0 then .error "integer modulo by zero"
    else if parts.all (fun kv => decide ((kv.2 / (r : ℚ)).den = 1)) then
      .ok (mkDerived (combine1 (fun x => x / (r : ℚ)) parts))
    else .error "cannot get root"

/-- `Measure.__pow__`: a power outside `{0, 1, -1}` whose reciprocal is
an integer is redirected to `root`; otherwise the primitive map is
scaled by the power. -/
def Measure.pow (m : MeasureVal) (p : ℚ) : Except String MeasureVal :=
  if p ≠ 0 ∧ p ≠ 1 ∧ p ≠ -1 ∧ (1 / p).den = 1 then Measure.root m ((1 / p).num)
  else .ok (mkDerived (combine1 (fun x => x * p) (primitivesOf m)))

/-- `Measure.__invert__`: `ScalarMeasure() / self`. -/
def Measure.inv (m : MeasureVal) : MeasureVal := Measure.div .scalar m

/-- `Measure.__rtruediv__`: `1 / m` is `~m`; any other numerator raises
`NotImplementedError`. -/
def Measure.rdiv (q : ℚ) (m : MeasureVal) : Except String MeasureVal :=
  if q = 1 then .ok (Measure.inv m) else .error "NotImplementedError"

/-- A value of the alias table of a `DerivedMeasure` (`_aliases`): a
composite unit string or a `(coefficient, string)` pair. -/
inductive AliasVal where
  | astr (s : String)
  | apair (f : ℚ) (u : String)
deriving DecidableEq, Repr

/-- The mutable per-instance state of an interned `DerivedMeasure`
object: its `_aliases` table and its display `_name`. -/
structure DState where
  aliases : List (String × AliasVal)
  dispName : Option String
deriving DecidableEq, Repr

/-- The process-wide interning cache `DerivedMeasure.cache`, keyed by
the canonical primitive map, holding each instance's mutable state. -/
abbrev DCache := List (PMap × DState)

/-- Cache lookup. -/
def cacheGet : DCache → PMap → Option DState
  | [], _ => none
  | (k', v') :: rest, k => if k' = k then some v' else cacheGet rest k

/-- Cache store (replace or append). -/
def cacheSet : DCache → PMap → DState → DCache
  | [], k, v => [(k, v)]
  | (k', v') :: rest, k, v =>
    if k' = k then (k, v) :: rest else (k', v') :: cacheSet rest k v

/-- Running `DerivedMeasure(parts)`: `__new__` interns (or retrieves)
the instance for the canonical key; when the result is an actual
`DerivedMeasure` (not a collapse to scalar/basic), Python then runs
`__init__` on it, which resets `_aliases` to `{}` and `_name` to
`None` — also on a cache hit. -/
def constructDerived (parts : PMap) (cache : DCache) : MeasureVal × DCache :=
  match mkDerived parts with
  | .derived key => (.derived key, cacheSet cache key ⟨[], none⟩)
  | m => (m, cache)

@[simp] theorem keysL_nil : keysL ([] : PMap) = [] := rfl

@[simp] theorem keysL_cons (kv : ℕ × ℚ) (l : PMap) : keysL (kv :: l) = kv.1 :: keysL l := rfl

@[simp] theorem keysL_append (a b : PMap) : keysL (a ++ b) = keysL a ++ keysL b :=
  List.map_append _ _ _

theorem mem_keysL {l : PMap} {k : ℕ} : k ∈ keysL l ↔ ∃ v, (k, v) ∈ l := by
  constructor
  · intro h
    rcases List.mem_map.mp h with ⟨⟨a, b⟩, hm, he⟩
    exact ⟨b, by rw [← he]; exact hm⟩
  · rintro ⟨v, hm⟩
    exact List.mem_map.mpr ⟨(k, v), hm, rfl⟩

theorem getD_eq_of_mem {l : PMap} (hn : (keysL l).Nodup) {k : ℕ} {v : ℚ}
    (h : (k, v) ∈ l) : getD l k = v := by
  induction l with
  | nil => cases h
  | cons kv rest ih =>
    rw [keysL_cons, List.nodup_cons] at hn
    rcases List.mem_cons.mp h with h | h
    · rw [← h]
      simp [getD]
    · have hk : kv.1 ≠ k := fun he => hn.1 (he ▸ mem_keysL.mpr ⟨v, h⟩)
      rw [getD, if_neg hk]
      exact ih hn.2 h

theorem getD_eq_zero {l : PMap} {k : ℕ} (h : k ∉ keysL l) : getD l k = 0 := by
  induction l with
  | nil => rfl
  | cons kv rest ih =>
    rw [keysL_cons, List.mem_cons, not_or] at h
    rw [getD, if_neg (Ne.symm h.1)]
    exact ih h.2

theorem combineAux_mem (g : ℕ → ℚ) (ks : List ℕ) :
    ∀ (ret : PMap) (kv : ℕ × ℚ),
      kv ∈ combineAux g ks ret ↔
        kv ∈ ret ∨ (kv.1 ∈ ks ∧ kv.1 ∉ keysL ret ∧ kv.2 = g kv.1 ∧ g kv.1 ≠ 0) := by
  induction ks with
  | nil => intro ret kv; simp [combineAux]
  | cons k ks ih =>
    intro ret kv
    by_cases hk : k ∈ keysL ret
    · rw [combineAux, if_pos hk, ih]
      constructor
      · rintro (h | ⟨h1, h2, h3, h4⟩)
        · exact Or.inl h
        · exact Or.inr ⟨List.mem_cons_of_mem _ h1, h2, h3, h4⟩
      · rintro (h | ⟨h1, h2, h3, h4⟩)
        · exact Or.inl h
        · rcases List.mem_cons.mp h1 with he | h1
          · exact absurd (he ▸ hk) h2
          · exact Or.inr ⟨h1, h2, h3, h4⟩
    · by_cases hg : g k ≠ 0
      · rw [combineAux, if_neg hk, if_pos hg, ih]
        constructor
        · rintro (h | ⟨h1, h2, h3, h4⟩)
          · rcases List.mem_append.mp h with h | h
            · exact Or.inl h
            · have he := List.mem_singleton.mp h
              rw [he]
              exact Or.inr ⟨List.mem_cons_self _ _, hk, rfl, hg⟩
          · rw [keysL_append] at h2
            simp only [keysL_cons, keysL_nil, List.mem_append, List.mem_singleton,
              not_or] at h2
            exact Or.inr ⟨List.mem_cons_of_mem _ h1, h2.1, h3, h4⟩
        · rintro (h | ⟨h1, h2, h3, h4⟩)
          · exact Or.inl (List.mem_append.mpr (Or.inl h))
          · by_cases he : kv.1 = k
            · refine Or.inl (List.mem_append.mpr (Or.inr ?_))
              have hkv : kv = (k, g k) := Prod.ext he (by rw [h3, he])
              rw [hkv]
              exact List.mem_singleton.mpr rfl
            · refine Or.inr ⟨?_, ?_, h3, h4⟩
              · rcases List.mem_cons.mp h1 with h' | h'
                exacts [absurd h' he, h']
              · rw [keysL_append]
                simp only [keysL_cons, keysL_nil, List.mem_append, List.mem_singleton,
                  not_or]
                exact ⟨h2, he⟩
      · rw [combineAux, if_neg hk, if_neg hg, ih]
        push_neg at hg
        constructor
        · rintro (h | ⟨h1, h2, h3, h4⟩)
          · exact Or.inl h
          · exact Or.inr ⟨List.mem_cons_of_mem _ h1, h2, h3, h4⟩
        · rintro (h | ⟨h1, h2, h3, h4⟩)
          · exact Or.inl h
          · by_cases he : kv.1 = k
            · rw [he] at h4; exact absurd hg h4
            · refine Or.inr ⟨?_, h2, h3, h4⟩
              rcases List.mem_cons.mp h1 with h' | h'
              exacts [absurd h' he, h']

theorem combineAux_keys_nodup (g : ℕ → ℚ) (ks : List ℕ) :
    ∀ ret : PMap, (keysL ret).Nodup → (keysL (combineAux g ks ret)).Nodup := by
  induction ks with
  | nil => intro ret h; simpa [combineAux] using h
  | cons k ks ih =>
    intro ret h
    by_cases hk : k ∈ keysL ret
    · rw [combineAux, if_pos hk]; exact ih ret h
    · by_cases hg : g k ≠ 0
      · rw [combineAux, if_neg hk, if_pos hg]
        refine ih _ ?_
        rw [keysL_append, keysL_cons, keysL_nil]
        refine h.append (List.nodup_singleton k) ?_
        intro a ha hb
        rcases List.mem_singleton.mp hb with rfl
        exact hk ha
      · rw [combineAux, if_neg hk, if_neg hg]; exact ih ret h

theorem combine2_mem (f : ℚ → ℚ → ℚ) (m1 m2 : PMap) (kv : ℕ × ℚ) :
    kv ∈ combine2 f m1 m2 ↔
      (kv.1 ∈ keysL m1 ∨ kv.1 ∈ keysL m2) ∧
        kv.2 = f (getD m1 kv.1) (getD m2 kv.1) ∧ f (getD m1 kv.1) (getD m2 kv.1) ≠ 0 := by
  rw [combine2, combineAux_mem]
  simp [List.mem_append]

theorem combine1_mem (f : ℚ → ℚ) (m : PMap) (kv : ℕ × ℚ) :
    kv ∈ combine1 f m ↔
      kv.1 ∈ keysL m ∧ kv.2 = f (getD m kv.1) ∧ f (getD m kv.1) ≠ 0 := by
  rw [combine1, combineAux_mem]
  simp

theorem combine2_keys_nodup (f : ℚ → ℚ → ℚ) (m1 m2 : PMap) :
    (keysL (combine2 f m1 m2)).Nodup :=
  combineAux_keys_nodup _ _ [] (by simp)

theorem combine1_keys_nodup (f : ℚ → ℚ) (m : PMap) :
    (keysL (combine1 f m)).Nodup :=
  combineAux_keys_nodup _ _ [] (by simp)

theorem sorted_keyLt_of {l : PMap} (hs : l.Sorted keyLe) (hn : (keysL l).Nodup) :
    l.Sorted keyLt := by
  have hp : l.Pairwise (fun a b : ℕ × ℚ => a.1 ≠ b.1) := List.pairwise_map.mp hn
  exact (List.Pairwise.and hs hp).imp (fun h => Nat.lt_of_le_of_ne h.1 h.2)

theorem canonSort_eq_of_toFinset {p q : PMap} (hp : (keysL p).Nodup) (hq : (keysL q).Nodup)
    (h : p.toFinset = q.toFinset) : canonSort p = canonSort q := by
  have hpn : p.Nodup := List.Nodup.of_map _ hp
  have hqn : q.Nodup := List.Nodup.of_map _ hq
  have hperm : List.Perm p q := List.perm_of_nodup_nodup_toFinset_eq hpn hqn h
  rw [canonSort, canonSort, List.dedup_eq_self.mpr hpn, List.dedup_eq_self.mpr hqn]
  have hperm2 : List.Perm (List.insertionSort keyLe p) (List.insertionSort keyLe q) :=
    (List.perm_insertionSort keyLe p).trans (hperm.trans (List.perm_insertionSort keyLe q).symm)
  have hn1 : (keysL (List.insertionSort keyLe p)).Nodup :=
    (((List.perm_insertionSort keyLe p).map Prod.fst).nodup_iff).mpr hp
  have hn2 : (keysL (List.insertionSort keyLe q)).Nodup :=
    (((List.perm_insertionSort keyLe q).map Prod.fst).nodup_iff).mpr hq
  exact List.eq_of_perm_of_sorted hperm2
    (sorted_keyLt_of (List.sorted_insertionSort keyLe p) hn1)
    (sorted_keyLt_of (List.sorted_insertionSort keyLe q) hn2)

theorem mkDerived_congr {p q : PMap} (hp : (keysL p).Nodup) (hq : (keysL q).Nodup)
    (h : p.toFinset = q.toFinset) : mkDerived p = mkDerived q := by
  unfold mkDerived
  rw [canonSort_eq_of_toFinset hp hq h]

theorem primitivesOf_mkDerived_perm {p : PMap} (hp : (keysL p).Nodup) :
    List.Perm (primitivesOf (mkDerived p)) p := by
  have hpn : p.Nodup := List.Nodup.of_map _ hp
  have hcs : List.Perm (canonSort p) p := by
    rw [canonSort, List.dedup_eq_self.mpr hpn]
    exact List.perm_insertionSort keyLe p
  unfold mkDerived
  split
  · next heq => rw [heq] at hcs; simpa [primitivesOf] using hcs
  · next b e heq =>
    rw [heq] at hcs
    by_cases he : e = 1
    · rw [if_pos he]
      rw [he] at hcs
      simpa [primitivesOf] using hcs
    · rw [if_neg he]
      simpa [primitivesOf] using hcs
  · simpa [primitivesOf] using hcs

theorem primitivesOf_mkDerived_toFinset {p : PMap} (hp : (keysL p).Nodup) :
    (primitivesOf (mkDerived p)).toFinset = p.toFinset :=
  List.toFinset_eq_of_perm _ _ (primitivesOf_mkDerived_perm hp)

theorem primitivesOf_mkDerived_keys_nodup {p : PMap} (hp : (keysL p).Nodup) :
    (keysL (primitivesOf (mkDerived p))).Nodup :=
  (((primitivesOf_mkDerived_perm hp).map Prod.fst).nodup_iff).mpr hp

theorem getD_congr {p q : PMap} (hp : (keysL p).Nodup) (hq : (keysL q).Nodup)
    (h : p.toFinset = q.toFinset) (k : ℕ) : getD p k = getD q k := by
  by_cases hk : k ∈ keysL p
  · rcases mem_keysL.mp hk with ⟨v, hv⟩
    have hv' : (k, v) ∈ q := List.mem_toFinset.mp (h ▸ List.mem_toFinset.mpr hv)
    rw [getD_eq_of_mem hp hv, getD_eq_of_mem hq hv']
  · have hk' : k ∉ keysL q := by
      intro hc
      rcases mem_keysL.mp hc with ⟨v, hv⟩
      exact hk (mem_keysL.mpr ⟨v, List.mem_toFinset.mp (h ▸ List.mem_toFinset.mpr hv)⟩)
    rw [getD_eq_zero hk, getD_eq_zero hk']

theorem mem_keysL_congr {p q : PMap} (h : p.toFinset = q.toFinset) (k : ℕ) :
    k ∈ keysL p ↔ k ∈ keysL q := by
  rw [mem_keysL, mem_keysL]
  constructor
  · rintro ⟨v, hv⟩; exact ⟨v, List.mem_toFinset.mp (h ▸ List.mem_toFinset.mpr hv)⟩
  · rintro ⟨v, hv⟩; exact ⟨v, List.mem_toFinset.mp (h.symm ▸ List.mem_toFinset.mpr hv)⟩

theorem cacheGet_cacheSet (c : DCache) (k : PMap) (v : DState) :
    cacheGet (cacheSet c k v) k = some v := by
  induction c with
  | nil => simp [cacheSet, cacheGet]
  | cons kv rest ih =>
    obtain ⟨k', v'⟩ := kv
    by_cases h : k' = k
    · rw [cacheSet, if_pos h, cacheGet, if_pos rfl]
    · rw [cacheSet, if_neg h, cacheGet, if_neg h]
      exact ih

/-- A plain `Measurement`: an amount in arbitrary units and a reference
to its measure (by object id). -/
structure Mment where
  amount : ℚ
  mid : ℕ
deriving DecidableEq, Repr

/-- Right-hand operands fed to `Measurement` operators. -/
inductive MOperand where
  | mea (m : Mment)
  | mstr (s : String)
  | mnum (q : ℚ)
deriving DecidableEq, Repr

/-- `Measure.__call__(unit_string, 1)` on a basic measure object:
`amount *= self[unit]`, then `Measurement(amount, self)`; a failed
lookup raises out of the call. -/
def measureCallStr (env : Env) (mid : ℕ) (s : String) : Except PyErr Mment :=
  match basicGetF (env mid) s with
  | .ok c => .ok ⟨1 * c, mid⟩
  | .error e => .error e

/-- `Measurement._coalesce`: another measurement passes (subject to the
measure-identity check); a string is parsed by the receiver's measure;
the literal `0` triggers `self.measure(0)`, whose unit lookup passes
the integer `0` to `re.fullmatch` inside `split_amount_args` and so
raises `TypeError`; any other number yields `None` (the operator then
returns `NotImplemented`). -/
def Mment.coalesce (env : Env) (x : Mment) (v : MOperand) (checkMeasure : Bool) :
    Except PyErr (Option Mment) :=
  match v with
  | .mea m => .ok (if checkMeasure ∧ m.mid ≠ x.mid then none else some m)
  | .mstr s => (measureCallStr env x.mid s).map some
  | .mnum q =>
    if q = 0 then .error (.typeErr "expected string or bytes-like object")
    else .ok none

/-- Result of a binary `Measurement` operator. -/
inductive OpRes where
  | val (m : Mment)
  | notImpl
  | raised (e : PyErr)
deriving DecidableEq, Repr

/-- `Measurement.__add__`. -/
def Mment.add (env : Env) (x : Mment) (v : MOperand) : OpRes :=
  match Mment.coalesce env x v true with
  | .error e => .raised e
  | .ok none => .notImpl
  | .ok (some o) => .val ⟨x.amount + o.amount, x.mid⟩

/-- `Measurement.__sub__`. -/
def Mment.sub (env : Env) (x : Mment) (v : MOperand) : OpRes :=
  match Mment.coalesce env x v true with
  | .error e => .raised e
  | .ok none => .notImpl
  | .ok (some o) => .val ⟨x.amount - o.amount, x.mid⟩

/-- Result of a `Measurement` comparison operator. -/
inductive CmpRes where
  | bval (b : Bool)
  | cnotImpl
  | craised (e : PyErr)
deriving DecidableEq, Repr

/-- `Measurement.__lt__`. -/
def Mment.ltOp (env : Env) (x : Mment) (v : MOperand) : CmpRes :=
  match Mment.coalesce env x v true with
  | .error e => .craised e
  | .ok none => .cnotImpl
  | .ok (some o) => .bval (decide (x.amount < o.amount))

/-- `Measurement.__le__`. -/
def Mment.leOp (env : Env) (x : Mment) (v : MOperand) : CmpRes :=
  match Mment.coalesce env x v true with
  | .error e => .craised e
  | .ok none => .cnotImpl
  | .ok (some o) => .bval (decide (x.amount ≤ o.amount))

/-- `Measurement.__gt__`. -/
def Mment.gtOp (env : Env) (x : Mment) (v : MOperand) : CmpRes :=
  match Mment.coalesce env x v true with
  | .error e => .craised e
  | .ok none => .cnotImpl
  | .ok (some o) => .bval (decide (o.amount < x.amount))

/-- `Measurement.__ge__`. -/
def Mment.geOp (env : Env) (x : Mment) (v : MOperand) : CmpRes :=
  match Mment.coalesce env x v true with
  | .error e => .craised e
  | .ok none => .cnotImpl
  | .ok (some o) => .bval (decide (o.amount ≤ x.amount))

/-- `Measurement.__mul__` with a `Real` right operand. -/
def Mment.mulScalar (x : Mment) (r : ℚ) : Mment := ⟨x.amount * r, x.mid⟩

/-- `Measurement.__truediv__` with a `Real` right operand. -/
def Mment.divScalar (x : Mment) (r : ℚ) : Mment := ⟨x.amount / r, x.mid⟩

/-- A `DynamicMeasurement`: the amount, the unit name it was created in
(not eagerly resolved), and its measure's object id. -/
structure DynM where
  amount : ℚ
  unit : String
  mid : ℕ
deriving DecidableEq, Repr

/-- `DynamicMeasure.__call__` with a string unit: a leading amount in
the unit string scales the (default `1`) amount and the remaining unit
name is stored. -/
def dynCall (unit : String) (amount : ℚ) (mid : ℕ) : Except PyErr DynM :=
  match splitAmountArgs unit with
  | .found f u => .ok ⟨amount * f, u, mid⟩
  | .noMatch => .ok ⟨amount, unit, mid⟩
  | .floatErr => .error (.valueErr "could not convert string to float")

/-- `DynamicMeasurement.arb`: `amount * measure[unit]`, reading the
measure's current table. -/
def DynM.arb (env : Env) (m : DynM) : Except PyErr ℚ :=
  (basicGetF (env m.mid) m.unit).map (fun c => m.amount * c)

/-- `DynamicMeasurement.__getitem__`: current arbitrary value divided by
the current coefficient of the requested unit. -/
def DynM.read (env : Env) (m : DynM) (item : String) : Except PyErr ℚ :=
  match DynM.arb env m with
  | .error e => .error e
  | .ok a =>
    match basicGetF (env m.mid) item with
    | .error e => .error e
    | .ok c => .ok (a / c)

/-- `DynamicMeasurement.__mul__` with a `Real` right operand. -/
def DynM.mulScalar (x : DynM) (r : ℚ) : DynM := ⟨x.amount * r, x.unit, x.mid⟩

/-- `DynamicMeasurement.__truediv__` with a `Real` right operand:
`type(self)(self.amount / other, self.measure)` calls the three-argument
constructor `DynamicMeasurement.__new__(cls, amount, unit, measure)`
with only two arguments, so the call raises `TypeError` before any
measurement is produced. -/
def DynM.divScalar (_ : DynM) (_ : ℚ) : Except PyErr DynM :=
  .error (.typeErr "missing 1 required positional argument: measure")

/-- A `BasicAggregateMeasure` object: its own identity and the identity
of its derivative measure. -/
structure AggM where
  aggId : ℕ
  derivId : ℕ
deriving DecidableEq, Repr

/-- An `AggregateMeasurement` over a basic-measure-backed aggregate. -/
structure AggMment where
  amount : ℚ
  measure : AggM
deriving DecidableEq, Repr

/-- Right-hand operands fed to `AggregateMeasurement` operators. -/
inductive AOperand where
  | amea (m : Mment)
  | aagg (a : AggMment)
  | astr (s : String)
  | anum (q : ℚ)
deriving DecidableEq, Repr

/-- `AggregateMeasurement._coalesce_to_delta`: a `Measurement` passes if
its measure is the aggregate's derivative; a string is parsed by the
derivative measure (`derivative()(v)`); the literal `0` reaches
`BasicMeasure.__getitem__(0)`, which passes the integer `0` to
`re.fullmatch`: `TypeError`; anything else gives `None`. -/
def aggCoalesceDelta (env : Env) (x : AggMment) (v : AOperand) :
    Except PyErr (Option Mment) :=
  match v with
  | .amea m => .ok (if m.mid ≠ x.measure.derivId then none else some m)
  | .astr s => (measureCallStr env x.measure.derivId s).map some
  | .anum q =>
    if q = 0 then .error (.typeErr "expected string or bytes-like object")
    else .ok none
  | .aagg _ => .ok none

/-- `AggregateMeasure.__call__` on a string: an explicit leading amount
is required (`ValueError` otherwise); the converter comes from the
derivative measure's table. -/
def aggCallStr (env : Env) (am : AggM) (s : String) : Except PyErr AggMment :=
  match splitAmountArgs s with
  | .noMatch => .error (.valueErr "amount must be specified")
  | .floatErr => .error (.valueErr "could not convert string to float")
  | .found f u =>
    match basicGetF (env am.derivId) u with
    | .ok c => .ok ⟨f * c, am⟩
    | .error e => .error e

/-- `AggregateMeasurement._coalesce_to_absolute`: another aggregate
passes subject to the measure-identity check; a string goes through
`self.measure(v)`; the literal `0` reaches `split_amount_args(0)`:
`TypeError`; a plain `Measurement` evaluates `v == 0`, which coalesces
`0` inside `Measurement.__eq__` and raises the same `TypeError`. -/
def aggCoalesceAbs (env : Env) (x : AggMment) (v : AOperand) :
    Except PyErr (Option AggMment) :=
  match v with
  | .aagg a => .ok (if a.measure ≠ x.measure then none else some a)
  | .astr s => (aggCallStr env x.measure s).map some
  | .anum q =>
    if q = 0 then .error (.typeErr "expected string or bytes-like object")
    else .ok none
  | .amea _ => .error (.typeErr "expected string or bytes-like object")

/-- Result of `AggregateMeasurement.__sub__`. -/
inductive ASubRes where
  | aggRes (a : AggMment)
  | deltaRes (m : Mment)
  | subNotImpl
  | subRaised (e : PyErr)
deriving DecidableEq, Repr

/-- `AggregateMeasurement.__sub__`: the delta interpretation is tried
first (aggregate result); the absolute interpretation is the fallback
and produces a delta `Measurement` of the derivative measure (built
with unit `None`, so the arbitrary amount is stored as is). -/
def aggSub (env : Env) (x : AggMment) (v : AOperand) : ASubRes :=
  match aggCoalesceDelta env x v with
  | .error e => .subRaised e
  | .ok (some d) => .aggRes ⟨x.amount - d.amount, x.measure⟩
  | .ok none =>
    match aggCoalesceAbs env x v with
    | .error e => .subRaised e
    | .ok (some a) => .deltaRes ⟨x.amount - a.amount, x.measure.derivId⟩
    | .ok none => .subNotImpl

/-- Result of `AggregateMeasurement.__add__`. -/
inductive AAddRes where
  | aval (a : AggMment)
  | addNotImpl
  | addRaised (e : PyErr)
deriving DecidableEq, Repr

/-- `AggregateMeasurement.__add__`: coalesce to a delta and shift. -/
def aggAdd (env : Env) (x : AggMment) (v : AOperand) : AAddRes :=
  match aggCoalesceDelta env x v with
  | .error e => .addRaised e
  | .ok none => .addNotImpl
  | .ok (some d) => .aval ⟨x.amount + d.amount, x.measure⟩

/-- `AggregateMeasurement.__eq__`: after a successful coalesce the code
evaluates `other.owner`, an attribute `AggregateMeasurement` does not
have (its slots are `measure` and `amount`), so the comparison raises
`AttributeError`; a failed (`None`) coalesce short-circuits the `and`
chain and the comparison is falsy. -/
def aggEq (env : Env) (x : AggMment) (v : AOperand) : Except PyErr Bool :=
  match aggCoalesceAbs env x v with
  | .error e => .error e
  | .ok none => .ok false
  | .ok (some _) => .error (.attrErr "AggregateMeasurement object has no attribute owner")

/-- A `Ladder`: affine transform `(scale, offset)` between a unit axis
and the arbitrary axis. -/
structure Ladder where
  scale : ℚ
  offset : ℚ
deriving DecidableEq, Repr

/-- `Ladder.to_arb`. -/
def Ladder.toArb (l : Ladder) (v : ℚ) : ℚ := (v + l.offset) * l.scale

/-- `Ladder.from_arb`. -/
def Ladder.fromArb (l : Ladder) (v : ℚ) : ℚ := v / l.scale - l.offset

/-- `Ladder.from_points` against the arbitrary axis, including the
construction-time round-trip assertion (exact in `ℚ`); `none` models
the assertion failing. -/
def Ladder.fromPoints (t0 t1 o0 o1 : ℚ) : Option Ladder :=
  let s := (o0 - o1) / (t0 - t1)
  let o := o0 * s - t0
  let ret : Ladder := ⟨s, o⟩
  if ret.fromArb o1 = t1 then some ret else none

/-- `Ladder.arbitrary`. -/
def Ladder.arbitrary : Ladder := ⟨1, 0⟩

/-- The Celsius ladder of the `Temperature` measure of the catalogue:
`Ladder.from_points((-273.15, 0), (0, 273.15))`. -/
def cLadder : Ladder := ⟨1, 27315 / 100⟩

/-- The Fahrenheit ladder: `Ladder.from_points((-459.67, -40), (0, 233.15))`. -/
def fLadder : Ladder := ⟨5 / 9, 45967 / 100⟩

/-- The ladder table of `Temperature`. -/
def tempLadders : List (String × Ladder) :=
  [("K", .arbitrary), ("kelvin", .arbitrary), ("C", cLadder), ("celsius", cLadder),
   ("F", fLadder), ("fahrenheit", fLadder)]

/-- Dict lookup in a ladder table. -/
def ladderFind : List (String × Ladder) → String → Option Ladder
  | [], _ => none
  | (k, v) :: rest, s => if k = s then some v else ladderFind rest s

/-- `LinearMeasureDelta.__getitem__` on a string: split a leading amount
recursively, else look the ladder up and return its scale (offsets are
ignored for deltas). -/
def tempDeltaGet (fuel : ℕ) (s : String) : Except PyErr ℚ :=
  if fuel = 0 then .error .recursionErr
  else
    match splitAmountArgs s with
    | .floatErr => .error (.valueErr "could not convert string to float")
    | .found a r => (tempDeltaGet (fuel - 1) r).map (fun c => a * c)
    | .noMatch =>
      match ladderFind tempLadders s with
      | some lad => .ok lad.scale
      | none => .error (.keyErr s)
termination_by fuel
decreasing_by all_goals omega

/-- `tempDeltaGet` with the standard fuel. -/
def tempDeltaGetF (s : String) : Except PyErr ℚ := tempDeltaGet 1000 s

/-- `Measure.__call__(s, 1)` on `Temperature.delta`: the arbitrary
amount of the delta measurement for `s`. -/
def tempDeltaCall (s : String) : Except PyErr ℚ :=
  (tempDeltaGetF s).map (fun c => 1 * c)

/-- `AggregateMeasure.__call__` on `Temperature.absolute`: an explicit
leading amount is required; the ladder is looked up through
`AggregateLinearMeasure.__getitem__` (no amount re-splitting) and the
amount is converted by `amount * ladder`, the full affine `to_arb`. -/
def tempAbsCall (s : String) : Except PyErr ℚ :=
  match splitAmountArgs s with
  | .noMatch => .error (.valueErr "amount must be specified")
  | .floatErr => .error (.valueErr "could not convert string to float")
  | .found a u =>
    match ladderFind tempLadders u with
    | some lad => .ok (lad.toArb a)
    | none => .error (.keyErr u)

/-- Right-hand operands for the temperature aggregate/measurement
operators.  All measurements in the scenario share the single
`Temperature` measure, so only amounts are carried and the
measure-identity checks of the coalesce helpers pass. -/
inductive TOperand where
  | tmea (amount : ℚ)
  | tabs (amount : ℚ)
  | tstr (s : String)
  | tnum (q : ℚ)
deriving DecidableEq, Repr

/-- `_coalesce_to_delta` on a temperature aggregate measurement.  For
the literal `0`, `derivative()(0)` reaches
`LinearMeasureDelta.__getitem__(0)`, which bypasses the string branch
and looks the integer `0` up in the ladder dict: `KeyError`. -/
def tCoalesceDelta (v : TOperand) : Except PyErr (Option ℚ) :=
  match v with
  | .tmea m => .ok (some m)
  | .tstr s => (tempDeltaCall s).map some
  | .tnum q => if q = 0 then .error (.keyErr "0") else .ok none
  | .tabs _ => .ok none

/-- `_coalesce_to_absolute` on a temperature aggregate measurement.
For the literal `0`, `self.measure(0)` runs
`AggregateMeasure.__call__(0, None)`, which passes the integer `0` to
`split_amount_args`: `TypeError`.  For a plain `Measurement`,
evaluating `v == 0` coalesces `0` inside `Measurement.__eq__` and the
ladder lookup of the integer `0` raises `KeyError`. -/
def tCoalesceAbs (v : TOperand) : Except PyErr (Option ℚ) :=
  match v with
  | .tabs a => .ok (some a)
  | .tstr s => (tempAbsCall s).map some
  | .tnum q =>
    if q = 0 then .error (.typeErr "expected string or bytes-like object")
    else .ok none
  | .tmea _ => .error (.keyErr "0")

/-- Result of `AggregateMeasurement.__sub__` on the temperature
aggregate. -/
inductive TSubRes where
  | taggRes (a : ℚ)
  | tdeltaRes (m : ℚ)
  | tsubNotImpl
  | tsubRaised (e : PyErr)
deriving DecidableEq, Repr

/-- `AggregateMeasurement.__sub__` for temperature values. -/
def tAggSub (x : ℚ) (v : TOperand) : TSubRes :=
  match tCoalesceDelta v with
  | .error e => .tsubRaised e
  | .ok (some d) => .taggRes (x - d)
  | .ok none =>
    match tCoalesceAbs v with
    | .error e => .tsubRaised e
    | .ok (some a) => .tdeltaRes (x - a)
    | .ok none => .tsubNotImpl

/-- Result of `AggregateMeasurement.__add__` on the temperature
aggregate. -/
inductive TAddRes where
  | taddVal (a : ℚ)
  | taddNotImpl
  | taddRaised (e : PyErr)
deriving DecidableEq, Repr

/-- `AggregateMeasurement.__add__` for temperature values. -/
def tAggAdd (x : ℚ) (v : TOperand) : TAddRes :=
  match tCoalesceDelta v with
  | .error e => .taddRaised e
  | .ok none => .taddNotImpl
  | .ok (some d) => .taddVal (x + d)

/-- `AggregateMeasurement.__eq__` for temperature values: a successful
coalesce evaluates the nonexistent attribute `other.owner` and raises
`AttributeError`; a failed coalesce short-circuits to a falsy result. -/
def tAggEq (x : ℚ) (v : TOperand) : Except PyErr Bool :=
  match tCoalesceAbs v with
  | .error e => .error e
  | .ok none => .ok false
  | .ok (some _) => .error (.attrErr "AggregateMeasurement object has no attribute owner")

/-- `Measurement.__eq__` for a delta measurement of `Temperature.delta`
(coalesce with `check_measure=False`, then compare measures — identical
here — and amounts).  A number other than `0` makes the coalesce return
`None`; the operator returns `NotImplemented` and Python's fallback
identity comparison is `False`, modelled as `.ok false`. -/
def tMeasEq (x : ℚ) (v : TOperand) : Except PyErr Bool :=
  match v with
  | .tmea m => .ok (decide (x = m))
  | .tstr s =>
    match tempDeltaCall s with
    | .ok c => .ok (decide (x = c))
    | .error e => .error e
  | .tnum q => if q = 0 then .error (.keyErr "0") else .ok false
  | .tabs _ => .error (.typeErr "expected string or bytes-like object")

/-- The exponent suffix of a composite-unit token:
`(\^|(\*\*)|())[1-9][0-9]*`, the whole group optional.  The validating
pattern only accepts `^` on the first token of a part (later
repetitions contain a bare `^` anchor, which cannot match mid-string);
defaults to exponent `1` with nothing consumed. -/
def parseExpTok (allowCaret : Bool) (cs : List Char) : ℕ × List Char :=
  match cs with
  | '^' :: d :: rest =>
    if allowCaret ∧ d.isDigit ∧ d ≠ '0' then
      let (ds, r) := spanP Char.isDigit rest
      (digitsToNat (d :: ds), r)
    else (1, cs)
  | '*' :: '*' :: d :: rest =>
    if d.isDigit ∧ d ≠ '0' then
      let (ds, r) := spanP Char.isDigit rest
      (digitsToNat (d :: ds), r)
    else (1, cs)
  | d :: rest =>
    if d.isDigit ∧ d ≠ '0' then
      let (ds, r) := spanP Char.isDigit rest
      (digitsToNat (d :: ds), r)
    else (1, cs)
  | [] => (1, [])

/-- One `name[exponent]` token: a nonempty letter run plus an optional
exponent. -/
def parseTok (allowCaret : Bool) (cs : List Char) : Option ((String × ℕ) × List Char) :=
  match spanP Char.isAlpha cs with
  | ([], _) => none
  | (letters, rest) =>
    let (e, r) := parseExpTok allowCaret rest
    some ((String.mk letters, e), r)

/-- Subsequent tokens of a part, each preceded by the separator
`\s*\*?\s*`; stops without consuming when no further name follows. -/
def parseMoreToks (fuel : ℕ) (cs : List Char) (acc : List (String × ℕ)) :
    List (String × ℕ) × List Char :=
  if fuel = 0 then (acc, cs)
  else
    let r1 := (spanP wsChar cs).2
    let r2 := match r1 with
      | '*' :: r => (spanP wsChar r).2
      | r => r
    match parseTok false r2 with
    | some (t, r3) => parseMoreToks (fuel - 1) r3 (acc ++ [t])
    | none => (acc, cs)
termination_by fuel
decreasing_by all_goals omega

/-- A full numerator/denominator part: first token (caret allowed),
then further tokens; the literal `1` (numerator only) denotes an empty
part. -/
def parsePart (allowOne : Bool) (cs : List Char) :
    Option (List (String × ℕ) × List Char) :=
  match parseTok true cs with
  | some (t, r) => some (parseMoreToks r.length r [t])
  | none =>
    if allowOne then
      match cs with
      | '1' :: r => some ([], r)
      | _ => none
    else none

/-- Full match of `composite_measurement_pattern`:
`pos( \s* / \s* neg)?`, with the token lists of both parts (as
recovered by `measurement_pattern.finditer` in
`_assign_measurements`). -/
def parseComposite (s : String) : Option (List (String × ℕ) × List (String × ℕ)) :=
  match parsePart true s.toList with
  | none => none
  | some (pos, rest) =>
    if rest.isEmpty then some (pos, [])
    else
      match (spanP wsChar rest).2 with
      | '/' :: r2 =>
        match parsePart false ((spanP wsChar r2).2) with
        | some (neg, rest2) => if rest2.isEmpty then some (pos, neg) else none
        | none => none
      | _ => none

/-- `BasicMeasure.__contains__`: dict-key membership only. -/
def basicHasUnit (t : UnitTable) (name : String) : Bool :=
  (tableFind t name).isSome

/-- The generator in `_assign_measurements`: the first primitive (in
map order) with enough remaining budget whose measure contains the
name. -/
def findAssignable (env : Env) (left : PMap) (num : ℤ) (name : String) : Option ℕ :=
  match left with
  | [] => none
  | (k, n) :: rest =>
    if (num : ℚ) ≤ n ∧ basicHasUnit (env k) name then some k
    else findAssignable env rest num name

/-- `left[p] -= num`, preserving dict order. -/
def decLeft (left : PMap) (k : ℕ) (num : ℤ) : PMap :=
  left.map (fun kv => if kv.1 = k then (kv.1, kv.2 - num) else kv)

/-- `_assign_measurements` over the signed token list; the error is the
name of the `KeyError` raised when no primitive can take a token. -/
def assignToks (env : Env) : List (String × ℤ) → List (ℕ × ℤ × String) → PMap →
    Except String (List (ℕ × ℤ × String) × PMap)
  | [], asg, left => .ok (asg, left)
  | (name, num) :: ts, asg, left =>
    match findAssignable env left num name with
    | some k => assignToks env ts (asg ++ [(k, num, name)]) (decLeft left k num)
    | none => .error name

/-- The value `DerivedMeasure.__contains__` returns when called
directly: a `FalseWrapper` carrying the failure cause, or the truthy
assignment list. -/
inductive ContRes where
  | falseW (e : PyErr)
  | assigned (l : List (ℕ × ℤ × String))
deriving DecidableEq, Repr

/-- A `DerivedMeasure` object as seen by membership/lookup: its
primitive map and its `_aliases` table. -/
structure DerivedObj where
  parts : PMap
  aliases : List (String × AliasVal)
deriving DecidableEq, Repr

/-- Dict lookup in an alias table. -/
def aliasFind : List (String × AliasVal) → String → Option AliasVal
  | [], _ => none
  | (k, v) :: rest, s => if k = s then some v else aliasFind rest s

/-- The first primitive left with strictly positive unassigned budget. -/
def firstPositive : PMap → Option ℕ
  | [] => none
  | (k, n) :: rest => if 0 < n then some k else firstPositive rest

/-- `DerivedMeasure.__contains__`.  An alias entry is unpacked with
`f, a = self._aliases[item]`: a `(coefficient, unit)` pair recurses
into the unit; a plain string of length exactly 2 unpacks into its two
characters and recurses into the second; any other string makes the
unpacking itself raise `ValueError`.  Otherwise the composite grammar
is matched (`ValueError` cause on failure), the tokens are greedily
assigned (`KeyError` cause naming the unmatched unit), and any
primitive left with strictly positive budget yields the
`KeyError('unit ... unassigned')` cause. -/
def dContains (env : Env) (d : DerivedObj) (fuel : ℕ) (item : String) :
    Except PyErr ContRes :=
  if fuel = 0 then .error .recursionErr
  else
    match aliasFind d.aliases item with
    | some (.apair _ a) => dContains env d (fuel - 1) a
    | some (.astr s) =>
      match s.toList with
      | [_, c] => dContains env d (fuel - 1) (String.mk [c])
      | _ => .error (.valueErr "values to unpack (expected 2)")
    | none =>
      match parseComposite item with
      | none => .ok (.falseW (.valueErr ("could not parse string " ++ item)))
      | some (pos, neg) =>
        let toks := pos.map (fun t => (t.1, (t.2 : ℤ))) ++
          neg.map (fun t => (t.1, -(t.2 : ℤ)))
        match assignToks env toks [] d.parts with
        | .error name => .ok (.falseW (.keyErr name))
        | .ok (asg, left) =>
          match firstPositive left with
          | some k => .ok (.falseW (.keyErr ("unit " ++ toString k ++ " unassigned")))
          | none => .ok (.assigned asg)
termination_by fuel
decreasing_by all_goals omega

/-- `dContains` with the standard fuel. -/
def dContainsF (env : Env) (d : DerivedObj) (item : String) : Except PyErr ContRes :=
  dContains env d 1000 item

/-- `factor = 1; for k, n, m in assigned: factor *= k[m] ** n`. -/
def prodFactor (env : Env) : List (ℕ × ℤ × String) → Except PyErr ℚ
  | [] => .ok 1
  | (k, n, m) :: rest =>
    match basicGetF (env k) m with
    | .error e => .error e
    | .ok c => (prodFactor env rest).map (fun acc => c ^ n * acc)

/-- `DerivedMeasure.__getitem__` for a string key: split a leading
amount; resolve aliases (factor 1 for a plain string alias); otherwise
run `__contains__` and raise its carried cause on failure, or multiply
out the assignment on success. -/
def dGetItem (env : Env) (d : DerivedObj) (fuel : ℕ) (item : String) :
    Except PyErr ℚ :=
  if fuel = 0 then .error .recursionErr
  else
    match splitAmountArgs item with
    | .floatErr => .error (.valueErr "could not convert string to float")
    | .found a i => (dGetItem env d (fuel - 1) i).map (fun c => a * c)
    | .noMatch =>
      match aliasFind d.aliases item with
      | some (.astr a) => (dGetItem env d (fuel - 1) a).map (fun c => 1 * c)
      | some (.apair f a) => (dGetItem env d (fuel - 1) a).map (fun c => f * c)
      | none =>
        match dContains env d (fuel - 1) item with
        | .error e => .error e
        | .ok (.falseW e) => .error e
        | .ok (.assigned asg) => prodFactor env asg
termination_by fuel
decreasing_by all_goals omega

/-- `dGetItem` with the standard fuel. -/
def dGetItemF (env : Env) (d : DerivedObj) (item : String) : Except PyErr ℚ :=
  dGetItem env d 1000 item

@[simp] theorem primitivesOf_basic (b : ℕ) : primitivesOf (.basic b) = [(b, 1)] := rfl

@[simp] theorem primitivesOf_scalar : primitivesOf .scalar = [] := rfl

theorem getD_singleton (j : ℕ) (v : ℚ) (k : ℕ) :
    getD [(j, v)] k = if j = k then v else 0 := by
  simp [getD]

theorem keysL_singleton_iff (j : ℕ) (v : ℚ) (k : ℕ) : k ∈ keysL [(j, v)] ↔ k = j := by
  simp [keysL]

theorem keysL_singleton_nodup (j : ℕ) (v : ℚ) : (keysL [(j, v)]).Nodup := by
  simp [keysL]

/-- C1: any two `DerivedMeasure` constructions over set-equal
primitive-exponent maps return the same interned instance from the
process-wide cache; consequently, for distinct basic measures `a`, `b`,
the expression `(a / b) / b` evaluates to the identical object as
`a / b**2`, and `a * (1 / a)` evaluates to the `ScalarMeasure`
singleton. -/
theorem c1_canonicalization_identity (p1 p2 : PMap)
    (hp1 : (keysL p1).Nodup) (hp2 : (keysL p2).Nodup)
    (hset : p1.toFinset = p2.toFinset) (i j : ℕ) (hij : i ≠ j) :
    mkDerived p1 = mkDerived p2 ∧
    (∀ m, Measure.pow (.basic j) 2 = .ok m →
      Measure.div (Measure.div (.basic i) (.basic j)) (.basic j) =
        Measure.div (.basic i) m) ∧
    (∀ m, Measure.rdiv 1 (.basic i) = .ok m → Measure.mul (.basic i) m = .scalar) := by
  refine ⟨mkDerived_congr hp1 hp2 hset, ?_, ?_⟩
  · intro m hm
    have hden : ¬((2 : ℚ) ≠ 0 ∧ (2 : ℚ) ≠ 1 ∧ (2 : ℚ) ≠ -1 ∧ ((1 : ℚ) / 2).den = 1) := by
      norm_num
    rw [Measure.pow, if_neg hden] at hm
    injection hm with hm
    subst hm
    -- the inner division a / b
    have hAc : ∀ kv : ℕ × ℚ,
        kv ∈ combine2 (fun x y => x - y) [(i, 1)] [(j, 1)] ↔
          kv = (i, 1) ∨ kv = (j, -1) := by
      intro kv
      rw [combine2_mem]
      constructor
      · rintro ⟨h1, h2, h3⟩
        rw [keysL_singleton_iff, keysL_singleton_iff] at h1
        rcases h1 with hk | hk
        · left
          rw [hk, getD_singleton, getD_singleton, if_pos rfl, if_neg (fun h => hij h.symm)] at h2
          exact Prod.ext hk (by rw [h2]; norm_num)
        · right
          rw [hk, getD_singleton, getD_singleton, if_pos rfl, if_neg hij] at h2
          exact Prod.ext hk (by rw [h2]; norm_num)
      · rintro (rfl | rfl)
        · rw [keysL_singleton_iff, keysL_singleton_iff]
          rw [getD_singleton, getD_singleton]
          refine ⟨Or.inl rfl, ?_, ?_⟩ <;>
            simp [if_pos rfl, if_neg (fun h : j = i => hij h.symm)] <;> norm_num
        · rw [keysL_singleton_iff, keysL_singleton_iff]
          rw [getD_singleton, getD_singleton]
          refine ⟨Or.inr rfl, ?_, ?_⟩ <;>
            simp [if_pos rfl, if_neg hij] <;> norm_num
    have hAn : (keysL (combine2 (fun x y => x - y) [(i, (1:ℚ))] [(j, 1)])).Nodup :=
      combine2_keys_nodup _ _ _
    have hAkeys : ∀ k, k ∈ keysL (combine2 (fun x y => x - y) [(i, (1:ℚ))] [(j, 1)]) ↔
        k = i ∨ k = j := by
      intro k
      rw [mem_keysL]
      constructor
      · rintro ⟨v, hv⟩
        rcases (hAc _).mp hv with h | h
        · exact Or.inl (congrArg Prod.fst h)
        · exact Or.inr (congrArg Prod.fst h)
      · rintro (rfl | rfl)
        · exact ⟨1, (hAc _).mpr (Or.inl rfl)⟩
        · exact ⟨-1, (hAc _).mpr (Or.inr rfl)⟩
    have hgAi : getD (combine2 (fun x y => x - y) [(i, (1:ℚ))] [(j, 1)]) i = 1 :=
      getD_eq_of_mem hAn ((hAc _).mpr (Or.inl rfl))
    have hgAj : getD (combine2 (fun x y => x - y) [(i, (1:ℚ))] [(j, 1)]) j = -1 :=
      getD_eq_of_mem hAn ((hAc _).mpr (Or.inr rfl))
    -- its primitives after interning
    have hP1f := primitivesOf_mkDerived_toFinset hAn
    have hP1n := primitivesOf_mkDerived_keys_nodup hAn
    have hgP1 : ∀ k,
        getD (primitivesOf (mkDerived (combine2 (fun x y => x - y) [(i, 1)] [(j, 1)]))) k =
          getD (combine2 (fun x y => x - y) [(i, (1:ℚ))] [(j, 1)]) k :=
      getD_congr hP1n hAn hP1f
    have hP1keys : ∀ k,
        k ∈ keysL (primitivesOf (mkDerived (combine2 (fun x y => x - y) [(i, 1)] [(j, 1)]))) ↔
          k = i ∨ k = j := by
      intro k
      rw [mem_keysL_congr hP1f k]
      exact hAkeys k
    -- the b ** 2 map
    have hCc : ∀ kv : ℕ × ℚ, kv ∈ combine1 (fun x => x * 2) [(j, 1)] ↔ kv = (j, 2) := by
      intro kv
      rw [combine1_mem]
      constructor
      · rintro ⟨h1, h2, h3⟩
        rw [keysL_singleton_iff] at h1
        rw [h1, getD_singleton, if_pos rfl] at h2
        exact Prod.ext h1 (by rw [h2]; norm_num)
      · rintro rfl
        rw [keysL_singleton_iff, getD_singleton, if_pos rfl]
        norm_num
    have hCn : (keysL (combine1 (fun x => x * 2) [(j, (1:ℚ))])).Nodup :=
      combine1_keys_nodup _ _
    have hP2f := primitivesOf_mkDerived_toFinset hCn
    have hP2n := primitivesOf_mkDerived_keys_nodup hCn
    have hgP2 : ∀ k,
        getD (primitivesOf (mkDerived (combine1 (fun x => x * 2) [(j, 1)]))) k =
          getD (combine1 (fun x => x * 2) [(j, (1:ℚ))]) k :=
      getD_congr hP2n hCn hP2f
    have hgCj : getD (combine1 (fun x => x * 2) [(j, (1:ℚ))]) j = 2 :=
      getD_eq_of_mem hCn ((hCc _).mpr rfl)
    have hCkeys : ∀ k, k ∈ keysL (combine1 (fun x => x * 2) [(j, (1:ℚ))]) ↔ k = j := by
      intro k
      rw [mem_keysL]
      constructor
      · rintro ⟨v, hv⟩
        exact congrArg Prod.fst ((hCc _).mp hv)
      · rintro rfl
        exact ⟨2, (hCc _).mpr rfl⟩
    have hgCi : getD (combine1 (fun x => x * 2) [(j, (1:ℚ))]) i = 0 :=
      getD_eq_zero (fun h => hij ((hCkeys i).mp h))
    have hP2keys : ∀ k,
        k ∈ keysL (primitivesOf (mkDerived (combine1 (fun x => x * 2) [(j, 1)]))) ↔ k = j := by
      intro k
      rw [mem_keysL_congr hP2f k, mem_keysL]
      constructor
      · rintro ⟨v, hv⟩
        exact congrArg Prod.fst ((hCc _).mp hv)
      · rintro rfl
        exact ⟨2, (hCc _).mpr rfl⟩
    -- both outer divisions have the same item set {(i, 1), (j, -2)}
    rw [Measure.div, Measure.div, Measure.div]
    simp only [primitivesOf_basic]
    apply mkDerived_congr (combine2_keys_nodup _ _ _) (combine2_keys_nodup _ _ _)
    apply List.toFinset.ext
    intro kv
    rw [combine2_mem, combine2_mem]
    constructor
    · rintro ⟨h1, h2, h3⟩
      have hk : kv.1 = i ∨ kv.1 = j := by
        rcases h1 with h1 | h1
        · exact (hP1keys kv.1).mp h1
        · exact Or.inr ((keysL_singleton_iff _ _ _).mp h1)
      rcases hk with hk | hk
      · rw [hk, hgP1, hgAi, getD_singleton, if_neg (fun h => hij h.symm)] at h2
        refine ⟨Or.inl (by rw [hk]; exact (keysL_singleton_iff _ _ _).mpr rfl), ?_, ?_⟩
        · rw [hk, getD_singleton, if_pos rfl, hgP2, hgCi]
          rw [h2]
        · rw [hk, getD_singleton, if_pos rfl, hgP2, hgCi]
          norm_num
      · rw [hk, hgP1, hgAj, getD_singleton, if_pos rfl] at h2
        refine ⟨Or.inr (by rw [hk]; exact (hP2keys _).mpr rfl), ?_, ?_⟩
        · rw [hk, getD_singleton, if_neg hij, hgP2, hgCj]
          rw [h2]; norm_num
        · rw [hk, getD_singleton, if_neg hij, hgP2, hgCj]
          norm_num
    · rintro ⟨h1, h2, h3⟩
      have hk : kv.1 = i ∨ kv.1 = j := by
        rcases h1 with h1 | h1
        · exact Or.inl ((keysL_singleton_iff _ _ _).mp h1)
        · exact Or.inr ((hP2keys kv.1).mp h1)
      rcases hk with hk | hk
      · rw [hk, getD_singleton, if_pos rfl, hgP2, hgCi] at h2
        refine ⟨Or.inl (by rw [hk]; exact (hP1keys _).mpr (Or.inl rfl)), ?_, ?_⟩
        · rw [hk, hgP1, hgAi, getD_singleton, if_neg (fun h => hij h.symm)]
          rw [h2]
        · rw [hk, hgP1, hgAi, getD_singleton, if_neg (fun h => hij h.symm)]
          norm_num
      · rw [hk, getD_singleton, if_neg hij, hgP2, hgCj] at h2
        refine ⟨Or.inl (by rw [hk]; exact (hP1keys _).mpr (Or.inr rfl)), ?_, ?_⟩
        · rw [hk, hgP1, hgAj, getD_singleton, if_pos rfl]
          rw [h2]; norm_num
        · rw [hk, hgP1, hgAj, getD_singleton, if_pos rfl]
          norm_num
  · intro m hm
    rw [Measure.rdiv, if_pos rfl] at hm
    injection hm with hm
    subst hm
    -- 1 / a  =  Scalar / a : primitive map {i: -1}
    have hEc : ∀ kv : ℕ × ℚ,
        kv ∈ combine2 (fun x y => x - y) [] [(i, 1)] ↔ kv = (i, -1) := by
      intro kv
      rw [combine2_mem]
      constructor
      · rintro ⟨h1, h2, h3⟩
        rcases h1 with h1 | h1
        · simp [keysL] at h1
        · rw [keysL_singleton_iff] at h1
          rw [h1, getD_singleton, if_pos rfl] at h2
          exact Prod.ext h1 (by rw [h2]; norm_num [getD])
      · rintro rfl
        rw [keysL_singleton_iff, getD_singleton, if_pos rfl]
        norm_num [getD, keysL]
    have hEn : (keysL (combine2 (fun x y => x - y) [] [(i, (1:ℚ))])).Nodup :=
      combine2_keys_nodup _ _ _
    have hP3f := primitivesOf_mkDerived_toFinset hEn
    have hP3n := primitivesOf_mkDerived_keys_nodup hEn
    have hgP3 : ∀ k,
        getD (primitivesOf (mkDerived (combine2 (fun x y => x - y) [] [(i, 1)]))) k =
          getD (combine2 (fun x y => x - y) [] [(i, (1:ℚ))]) k :=
      getD_congr hP3n hEn hP3f
    have hgEi : getD (combine2 (fun x y => x - y) [] [(i, (1:ℚ))]) i = -1 :=
      getD_eq_of_mem hEn ((hEc _).mpr rfl)
    have hP3keys : ∀ k,
        k ∈ keysL (primitivesOf (mkDerived (combine2 (fun x y => x - y) [] [(i, 1)]))) ↔
          k = i := by
      intro k
      rw [mem_keysL_congr hP3f k, mem_keysL]
      constructor
      · rintro ⟨v, hv⟩
        exact congrArg Prod.fst ((hEc _).mp hv)
      · rintro rfl
        exact ⟨-1, (hEc _).mpr rfl⟩
    rw [Measure.mul, Measure.inv, Measure.div]
    simp only [primitivesOf_basic, primitivesOf_scalar]
    have hF : combine2 (fun x y => x + y) [(i, 1)]
        (primitivesOf (mkDerived (combine2 (fun x y => x - y) [] [(i, 1)]))) = [] := by
      rw [List.eq_nil_iff_forall_not_mem]
      intro kv hkv
      rw [combine2_mem] at hkv
      obtain ⟨h1, h2, h3⟩ := hkv
      have hk : kv.1 = i := by
        rcases h1 with h1 | h1
        · exact (keysL_singleton_iff _ _ _).mp h1
        · exact (hP3keys kv.1).mp h1
      rw [hk, getD_singleton, if_pos rfl, hgP3, hgEi] at h3
      norm_num at h3
    rw [hF]
    rfl

/-- C1 witness. -/
theorem c1_canonicalization_identity_witness :
    mkDerived [(0, 1), (1, 2)] = mkDerived [(1, 2), (0, 1)] ∧
    (∀ m, Measure.pow (.basic 1) 2 = .ok m →
      Measure.div (Measure.div (.basic 0) (.basic 1)) (.basic 1) =
        Measure.div (.basic 0) m) ∧
    (∀ m, Measure.rdiv 1 (.basic 0) = .ok m → Measure.mul (.basic 0) m = .scalar) :=
  c1_canonicalization_identity [(0, 1), (1, 2)] [(1, 2), (0, 1)]
    (by decide) (by decide) (by decide) 0 1 (by decide)

/-- C10: constructing a `DerivedMeasure` over a primitive map that is
already interned returns the cached instance but re-runs `__init__` on
it: whatever alias table and display name the instance carried are
reset to the empty table and `None`. -/
theorem c10_reinit_on_cache_hit (parts key : PMap) (cache : DCache) (st : DState)
    (hkey : mkDerived parts = .derived key) (hst : cacheGet cache key = some st) :
    (constructDerived parts cache).1 = .derived key ∧
    cacheGet (constructDerived parts cache).2 key = some ⟨[], none⟩ := by
  rw [constructDerived, hkey]
  exact ⟨rfl, cacheGet_cacheSet cache key ⟨[], none⟩⟩

/-- C10 witness: an instance interned with an alias and a display name
loses both when an equal measure expression is constructed again. -/
theorem c10_reinit_on_cache_hit_witness :
    (constructDerived [(0, 2)] [([(0, 2)], ⟨[("sq", .astr "xy")], some "area"⟩)]).1 =
      .derived [(0, 2)] ∧
    cacheGet (constructDerived [(0, 2)]
      [([(0, 2)], ⟨[("sq", .astr "xy")], some "area"⟩)]).2 [(0, 2)] = some ⟨[], none⟩ :=
  c10_reinit_on_cache_hit [(0, 2)] [(0, 2)]
    [([(0, 2)], ⟨[("sq", .astr "xy")], some "area"⟩)] ⟨[("sq", .astr "xy")], some "area"⟩
    (by norm_num +decide [mkDerived, canonSort, List.dedup, List.insertionSort])
    (by norm_num +decide [cacheGet])

theorem den_div_int_eq_one_iff (e : ℚ) (n : ℤ) (hn : n ≠ 0) :
    (e / (n : ℚ)).den = 1 ↔ ∃ k : ℤ, e = (k : ℚ) * n := by
  have hnq : (n : ℚ) ≠ 0 := Int.cast_ne_zero.mpr hn
  constructor
  · intro h
    refine ⟨(e / (n : ℚ)).num, ?_⟩
    have h2 : (((e / (n : ℚ)).num : ℤ) : ℚ) = e / (n : ℚ) := (Rat.den_eq_one_iff _).mp h
    rw [h2, div_mul_cancel₀ _ hnq]
  · rintro ⟨k, rfl⟩
    have h2 : ((k : ℚ)) * n / n = (k : ℚ) := by field_simp
    rw [h2]
    exact Rat.den_intCast k

/-- C8: a power `p` outside `{0, 1, -1}` whose reciprocal `1/p` is an
integer `n` redirects `m ** p` to `m.root(n)`; the root of a derived
measure succeeds — dividing every primitive exponent by `n` and
producing the canonical measure of the quotient map — exactly when
every primitive exponent is exactly divisible by `n`, and fails with a
domain error otherwise; a basic measure admits no root other than `1`. -/
theorem c8_pow_root_redirect (p : ℚ) (n : ℤ) (m : MeasureVal)
    (hp0 : p ≠ 0) (hp1 : p ≠ 1) (hpm : p ≠ -1) (hn : 1 / p = (n : ℚ)) :
    Measure.pow m p = Measure.root m n ∧
    (∀ b : ℕ, n ≠ 1 → Measure.root (.basic b) n = .error "cannot get root of primitive unit") ∧
    (∀ b : ℕ, Measure.root (.basic b) 1 = .ok (.basic b)) ∧
    (∀ parts : PMap, n ≠ 0 →
      ((∀ kv ∈ parts, ∃ k : ℤ, kv.2 = (k : ℚ) * n) →
        Measure.root (.derived parts) n =
          .ok (mkDerived (combine1 (fun x => x / (n : ℚ)) parts))) ∧
      (¬(∀ kv ∈ parts, ∃ k : ℤ, kv.2 = (k : ℚ) * n) →
        Measure.root (.derived parts) n = .error "cannot get root")) := by
  refine ⟨?_, ?_, ?_, ?_⟩
  · rw [Measure.pow, if_pos ⟨hp0, hp1, hpm, by rw [hn]; exact Rat.den_intCast n⟩,
      hn, Rat.num_intCast]
  · intro b hne
    simp only [Measure.root]
    rw [if_neg hne]
  · intro b
    simp [Measure.root]
  · intro parts hn0
    constructor
    · intro hall
      simp only [Measure.root]
      rw [if_neg hn0, if_pos ?hc]
      case hc =>
        rw [List.all_eq_true]
        intro kv hkv
        rw [decide_eq_true_iff]
        exact (den_div_int_eq_one_iff kv.2 n hn0).mpr (hall kv hkv)
    · intro hnall
      simp only [Measure.root]
      rw [if_neg hn0, if_neg ?hc2]
      case hc2 =>
        intro hcon
        apply hnall
        intro kv hkv
        rw [List.all_eq_true] at hcon
        exact (den_div_int_eq_one_iff kv.2 n hn0).mp (of_decide_eq_true (hcon kv hkv))

/-- C8 witness: `p = 1/2`, `n = 2`, over the derived map `{0 ↦ 2}`. -/
theorem c8_pow_root_redirect_witness :
    Measure.pow (.derived [(0, 2)]) (1 / 2) = Measure.root (.derived [(0, 2)]) 2 ∧
    Measure.root (.basic 0) 2 = .error "cannot get root of primitive unit" ∧
    Measure.root (.basic 0) 1 = .ok (.basic 0) ∧
    Measure.root (.derived [(0, 2)]) 2 =
      .ok (mkDerived (combine1 (fun x => x / ((2 : ℤ) : ℚ)) [(0, 2)])) := by
  obtain ⟨h1, h2, h3, h4⟩ :=
    c8_pow_root_redirect (1 / 2) 2 (.derived [(0, 2)])
      (by norm_num) (by norm_num) (by norm_num) (by norm_num)
  refine ⟨h1, h2 0 (by decide), h3 0, ?_⟩
  refine (h4 [(0, 2)] (by decide)).1 ?_
  intro kv hkv
  rw [List.mem_singleton] at hkv
  exact ⟨1, by rw [hkv]; norm_num⟩

/-- The `BasicMeasure` table of the alias-equivalence scenario:
`base=1, big=1000, alias -> 'big', pair = (2, 'alias')`. -/
def aliasTbl : UnitTable :=
  [("base", .coeff 1), ("big", .coeff 1000), ("alias", .ualias "big"),
   ("pair", .upair 2 "alias")]

/-- The same table after `optimize_aliases()`. -/
def aliasTblOpt : UnitTable :=
  [("base", .coeff 1), ("big", .coeff 1000), ("alias", .coeff 1000),
   ("pair", .coeff 2000)]

/-- C9: with `base=1`, `big=1000`, `alias -> 'big'`, `pair=(2,'alias')`,
the lookups satisfy `pair = 2*alias = 2*big = 2000*base`, and
`optimize_aliases()` replaces every non-numeric entry with its resolved
coefficient without changing any lookup. -/
theorem c9_alias_equivalence :
    basicGetF aliasTbl "pair" = .ok 2000 ∧
    basicGetF aliasTbl "alias" = .ok 1000 ∧
    basicGetF aliasTbl "big" = .ok 1000 ∧
    basicGetF aliasTbl "base" = .ok 1 ∧
    (2000 : ℚ) = 2 * 1000 ∧ (2000 : ℚ) = 2000 * 1 ∧
    optimizeAliases aliasTbl = .ok aliasTblOpt ∧
    basicGetF aliasTblOpt "pair" = .ok 2000 ∧
    basicGetF aliasTblOpt "alias" = .ok 1000 ∧
    basicGetF aliasTblOpt "big" = .ok 1000 ∧
    basicGetF aliasTblOpt "base" = .ok 1 := by
  refine ⟨?_, ?_, ?_, ?_, by norm_num, by norm_num, ?_, ?_, ?_, ?_, ?_⟩ <;>
    norm_num +decide [aliasTbl, aliasTblOpt, optimizeAliases, optimizeKeys, setUnit,
      basicGetF, basicGet, tableFind, splitAmountArgs, splitAmountList, parseExpSuffix,
      spanP, digitsToNat, wsChar, Except.map]

/-- The `DynamicMeasure` table of the live-update scenario:
`gold=1, toy=0.01, pog=2`. -/
def currTbl : UnitTable :=
  [("gold", .coeff 1), ("toy", .coeff (1 / 100)), ("pog", .coeff 2)]

/-- C2: a dynamic measurement re-reads
`amount * current_coefficient(stored unit) / current_coefficient(target
unit)` from the live table on every access; concretely,
`pogs = currency('3 pog')` stores `(3, 'pog')` unresolved, reads `6`
gold under `pog=2`, and re-reads `1.5` gold on the same object after
the coefficient is reassigned to `pog=0.5`. -/
theorem c2_dynamic_live_update (env : Env) (m : DynM) (item : String) (cu ct : ℚ)
    (hu : basicGetF (env m.mid) m.unit = .ok cu)
    (ht : basicGetF (env m.mid) item = .ok ct) :
    DynM.read env m item = .ok (m.amount * cu / ct) ∧
    dynCall "3 pog" 1 0 = .ok ⟨3, "pog", 0⟩ ∧
    DynM.read (fun _ => currTbl) ⟨3, "pog", 0⟩ "gold" = .ok 6 ∧
    DynM.read (fun _ => setUnit currTbl "pog" (.coeff (1 / 2))) ⟨3, "pog", 0⟩ "gold" =
      .ok (3 / 2) := by
  refine ⟨?_, ?_, ?_, ?_⟩
  · simp [DynM.read, DynM.arb, hu, ht, Except.map]
  · norm_num +decide [dynCall, splitAmountArgs, splitAmountList, parseExpSuffix, spanP,
      digitsToNat, wsChar]
  · norm_num +decide [DynM.read, DynM.arb, currTbl, basicGetF, basicGet, tableFind,
      splitAmountArgs, splitAmountList, parseExpSuffix, spanP, digitsToNat, wsChar,
      Except.map]
  · norm_num +decide [DynM.read, DynM.arb, currTbl, setUnit, basicGetF, basicGet,
      tableFind, splitAmountArgs, splitAmountList, parseExpSuffix, spanP, digitsToNat,
      wsChar, Except.map]

/-- C2 witness. -/
theorem c2_dynamic_live_update_witness :
    DynM.read (fun _ => currTbl) ⟨3, "pog", 0⟩ "gold" = .ok (3 * 2 / 1) ∧
    dynCall "3 pog" 1 0 = .ok ⟨3, "pog", 0⟩ :=
  ⟨(c2_dynamic_live_update (fun _ => currTbl) ⟨3, "pog", 0⟩ "gold" 2 1
      (by norm_num +decide [currTbl, basicGetF, basicGet, tableFind, splitAmountArgs,
        splitAmountList, parseExpSuffix, spanP, digitsToNat, wsChar])
      (by norm_num +decide [currTbl, basicGetF, basicGet, tableFind, splitAmountArgs,
        splitAmountList, parseExpSuffix, spanP, digitsToNat, wsChar])).1,
   (c2_dynamic_live_update (fun _ => currTbl) ⟨3, "pog", 0⟩ "gold" 2 1
      (by norm_num +decide [currTbl, basicGetF, basicGet, tableFind, splitAmountArgs,
        splitAmountList, parseExpSuffix, spanP, digitsToNat, wsChar])
      (by norm_num +decide [currTbl, basicGetF, basicGet, tableFind, splitAmountArgs,
        splitAmountList, parseExpSuffix, spanP, digitsToNat, wsChar])).2.1⟩

/-- C5: multiplying a measurement of either flavor by a scalar scales
the amount and preserves the measure (and, for the dynamic flavor, the
stored unit); dividing a plain measurement by a scalar does likewise,
but dividing a `DynamicMeasurement` raises `TypeError`, because
`__truediv__` omits the `unit` argument of the three-argument
constructor. -/
theorem c5_scalar_mul_div (x : Mment) (d : DynM) (r : ℚ) (hr : r ≠ 0) :
    Mment.mulScalar x r = ⟨x.amount * r, x.mid⟩ ∧
    Mment.divScalar x r = ⟨x.amount / r, x.mid⟩ ∧
    DynM.mulScalar d r = ⟨d.amount * r, d.unit, d.mid⟩ ∧
    DynM.divScalar d r =
      .error (.typeErr "missing 1 required positional argument: measure") :=
  ⟨rfl, rfl, rfl, rfl⟩

/-- C5 witness. -/
theorem c5_scalar_mul_div_witness :
    Mment.mulScalar ⟨6, 0⟩ 2 = ⟨6 * 2, 0⟩ ∧
    Mment.divScalar ⟨6, 0⟩ 2 = ⟨6 / 2, 0⟩ ∧
    DynM.mulScalar ⟨3, "pog", 0⟩ 2 = ⟨3 * 2, "pog", 0⟩ ∧
    DynM.divScalar ⟨3, "pog", 0⟩ 2 =
      .error (.typeErr "missing 1 required positional argument: measure") :=
  c5_scalar_mul_div ⟨6, 0⟩ ⟨3, "pog", 0⟩ 2 (by norm_num)

/-- C6: `+`, `-` and the four order comparisons between measurements of
different measures produce the `NotImplemented` sentinel (no exception,
no coercion, operands untouched); a parseable unit string is coalesced
into a measurement of the left operand's measure; the literal `0`,
however, makes the coalescing itself raise `TypeError` (the integer `0`
reaches `re.fullmatch` inside `split_amount_args`). -/
theorem c6_cross_measure_ops (env : Env) (a b : Mment) (hab : a.mid ≠ b.mid)
    (s : String) (c : ℚ) (hs : basicGetF (env a.mid) s = .ok c) :
    Mment.add env a (.mea b) = .notImpl ∧
    Mment.sub env a (.mea b) = .notImpl ∧
    Mment.ltOp env a (.mea b) = .cnotImpl ∧
    Mment.leOp env a (.mea b) = .cnotImpl ∧
    Mment.gtOp env a (.mea b) = .cnotImpl ∧
    Mment.geOp env a (.mea b) = .cnotImpl ∧
    Mment.coalesce env a (.mstr s) true = .ok (some ⟨1 * c, a.mid⟩) ∧
    Mment.add env a (.mstr s) = .val ⟨a.amount + 1 * c, a.mid⟩ ∧
    Mment.coalesce env a (.mnum 0) true =
      .error (.typeErr "expected string or bytes-like object") ∧
    Mment.add env a (.mnum 0) = .raised (.typeErr "expected string or bytes-like object") := by
  have hba : b.mid ≠ a.mid := Ne.symm hab
  refine ⟨?_, ?_, ?_, ?_, ?_, ?_, ?_, ?_, ?_, ?_⟩ <;>
    simp [Mment.add, Mment.sub, Mment.ltOp, Mment.leOp, Mment.gtOp, Mment.geOp,
      Mment.coalesce, measureCallStr, hba, hs, Except.map]

/-- C6 witness. -/
theorem c6_cross_measure_ops_witness :
    Mment.add (fun _ => currTbl) ⟨6, 0⟩ (.mea ⟨1, 1⟩) = .notImpl ∧
    Mment.coalesce (fun _ => currTbl) ⟨6, 0⟩ (.mstr "pog") true = .ok (some ⟨1 * 2, 0⟩) ∧
    Mment.add (fun _ => currTbl) ⟨6, 0⟩ (.mnum 0) =
      .raised (.typeErr "expected string or bytes-like object") := by
  obtain ⟨h1, _, _, _, _, _, h7, _, _, h10⟩ :=
    c6_cross_measure_ops (fun _ => currTbl) ⟨6, 0⟩ ⟨1, 1⟩ (by decide) "pog" 2
      (by norm_num +decide [currTbl, basicGetF, basicGet, tableFind, splitAmountArgs,
        splitAmountList, parseExpSuffix, spanP, digitsToNat, wsChar])
  exact ⟨h1, h7, h10⟩

/-- C3: subtracting from an aggregate measurement tries the delta
interpretation first: a right operand that coalesces to a delta
measurement of the derivative measure (a `Measurement` of that measure
or a parseable unit string) yields an aggregate with the difference of
amounts, while a right operand that coalesces to an aggregate of the
same measure falls back to the absolute interpretation and yields a
delta `Measurement` of the derivative measure; the claimed third delta
source, the literal `0`, instead raises `TypeError` inside the
coalescing (the integer `0` reaches `re.fullmatch`). -/
theorem c3_aggregate_sub_dual (env : Env) (x : AggMment) :
    (∀ m : Mment, m.mid = x.measure.derivId →
      aggSub env x (.amea m) = .aggRes ⟨x.amount - m.amount, x.measure⟩) ∧
    (∀ (s : String) (c : ℚ), basicGetF (env x.measure.derivId) s = .ok c →
      aggSub env x (.astr s) = .aggRes ⟨x.amount - 1 * c, x.measure⟩) ∧
    (∀ a : AggMment, a.measure = x.measure →
      aggSub env x (.aagg a) = .deltaRes ⟨x.amount - a.amount, x.measure.derivId⟩) ∧
    aggSub env x (.anum 0) = .subRaised (.typeErr "expected string or bytes-like object") := by
  refine ⟨?_, ?_, ?_, ?_⟩
  · intro m hm
    simp [aggSub, aggCoalesceDelta, hm]
  · intro s c hc
    simp [aggSub, aggCoalesceDelta, measureCallStr, hc, Except.map]
  · intro a ha
    simp [aggSub, aggCoalesceDelta, aggCoalesceAbs, ha]
  · simp [aggSub, aggCoalesceDelta]

/-- C3 witness: a `Position` aggregate over the `currTbl` basic measure. -/
theorem c3_aggregate_sub_dual_witness :
    aggSub (fun _ => currTbl) ⟨8, ⟨5, 0⟩⟩ (.amea ⟨2, 0⟩) = .aggRes ⟨8 - 2, ⟨5, 0⟩⟩ ∧
    aggSub (fun _ => currTbl) ⟨8, ⟨5, 0⟩⟩ (.astr "3 gold") = .aggRes ⟨8 - 1 * 3, ⟨5, 0⟩⟩ ∧
    aggSub (fun _ => currTbl) ⟨8, ⟨5, 0⟩⟩ (.aagg ⟨2, ⟨5, 0⟩⟩) = .deltaRes ⟨8 - 2, 0⟩ ∧
    aggSub (fun _ => currTbl) ⟨8, ⟨5, 0⟩⟩ (.anum 0) =
      .subRaised (.typeErr "expected string or bytes-like object") := by
  obtain ⟨h1, h2, h3, h4⟩ := c3_aggregate_sub_dual (fun _ => currTbl) ⟨8, ⟨5, 0⟩⟩
  exact ⟨h1 ⟨2, 0⟩ rfl,
    h2 "3 gold" 3 (by norm_num +decide [currTbl, basicGetF, basicGet, tableFind,
      splitAmountArgs, splitAmountList, parseExpSuffix, spanP, digitsToNat, wsChar,
      Except.map]),
    h3 ⟨2, ⟨5, 0⟩⟩ rfl, h4⟩

/-- C4: with the Temperature ladders calibrated as documented
(kelvin arbitrary, `0 C = 273.15 K`, `F` from the points
`(-459.67, -40)` and `(0, 233.15)`), `absolute("25 C") -
absolute("0 C")` is a delta measurement equal (under
`Measurement.__eq__`) to the delta measurement for `"25 C"` — and
comparing it with the absolute `"25 C"` raises `TypeError`;
`absolute("0 C") + delta("100 C")` has exactly the arbitrary amount of
`absolute("100 C")` (`373.15`), but the aggregate-measurement equality
operator raises `AttributeError` (it reads the nonexistent
`other.owner`) instead of returning `True`. -/
theorem c4_temperature_delta_vs_absolute :
    Ladder.fromPoints (-27315 / 100) 0 0 (27315 / 100) = some cLadder ∧
    Ladder.fromPoints (-45967 / 100) (-40) 0 (23315 / 100) = some fLadder ∧
    tempAbsCall "25 C" = .ok (29815 / 100) ∧
    tempAbsCall "0 C" = .ok (27315 / 100) ∧
    tAggSub (29815 / 100) (.tabs (27315 / 100)) = .tdeltaRes 25 ∧
    tempDeltaCall "25 C" = .ok 25 ∧
    tMeasEq 25 (.tmea 25) = .ok true ∧
    tMeasEq 25 (.tabs (29815 / 100)) =
      .error (.typeErr "expected string or bytes-like object") ∧
    tempDeltaCall "100 C" = .ok 100 ∧
    tAggAdd (27315 / 100) (.tmea 100) = .taddVal (37315 / 100) ∧
    tempAbsCall "100 C" = .ok (37315 / 100) ∧
    tAggEq (37315 / 100) (.tabs (37315 / 100)) =
      .error (.attrErr "AggregateMeasurement object has no attribute owner") := by
  refine ⟨?_, ?_, ?_, ?_, ?_, ?_, ?_, ?_, ?_, ?_, ?_, ?_⟩ <;>
    norm_num +decide [Ladder.fromPoints, Ladder.fromArb, Ladder.toArb, Ladder.arbitrary,
      cLadder, fLadder, tempLadders, ladderFind, tempAbsCall, tempDeltaCall,
      tempDeltaGetF, tempDeltaGet, tAggSub, tAggAdd, tAggEq, tMeasEq, tCoalesceDelta,
      tCoalesceAbs, splitAmountArgs, splitAmountList, parseExpSuffix, spanP, digitsToNat,
      wsChar, Except.map]

/-- The environment of the membership scenarios: basic measure `0` is a
duration (units `s`, `second`), basic measure `1` a distance (`m`,
`km`). -/
def envD : Env := fun n =>
  if n = 0 then [("s", .coeff 1), ("second", .coeff 1)]
  else [("m", .coeff 1), ("km", .coeff 1000)]

/-- Acceleration, `distance / duration**2`. -/
def accObj : DerivedObj := ⟨[(1, 1), (0, -2)], []⟩

/-- `distance**2 / duration`, for the under-assignment cause. -/
def areaPerTimeObj : DerivedObj := ⟨[(1, 2), (0, -1)], []⟩

/-- `1 / duration` with the plain-string alias `hz -> '1/second'`, as
set by the test suite via `Frequency['hz'] = '1/second'`. -/
def freqObj : DerivedObj := ⟨[(0, -1)], [("hz", .astr "1/second")]⟩

/-- C7: when membership fails on a non-alias, non-amount-prefixed
string, `__getitem__` raises exactly the carried cause; the three
causes (parse failure, unmatched unit name, unassigned primitive) are
distinguishable falsy values, and a successful match is a truthy
assignment.  But membership does not always complete without raising:
with the plain-string alias `hz -> '1/second'` (a configuration the
package's own tests create), `__contains__` unpacks the alias value
with `f, a = ...` and raises `ValueError`. -/
theorem c7_membership_causes (env : Env) (d : DerivedObj) (item : String) (fuel : ℕ)
    (e : PyErr) (hsplit : splitAmountArgs item = .noMatch)
    (halias : aliasFind d.aliases item = none)
    (hcont : dContains env d fuel item = .ok (.falseW e)) :
    dGetItem env d (fuel + 1) item = .error e ∧
    dContainsF envD freqObj "hz" = .error (.valueErr "values to unpack (expected 2)") ∧
    dContainsF envD accObj "??" = .ok (.falseW (.valueErr "could not parse string ??")) ∧
    dContainsF envD accObj "zz" = .ok (.falseW (.keyErr "zz")) ∧
    dContainsF envD areaPerTimeObj "m" = .ok (.falseW (.keyErr "unit 1 unassigned")) ∧
    dContainsF envD accObj "m/s2" = .ok (.assigned [(1, 1, "m"), (0, -2, "s")]) ∧
    dGetItemF envD accObj "zz" = .error (.keyErr "zz") ∧
    dGetItemF envD accObj "km/s2" = .ok 1000 := by
  refine ⟨?_, ?_, ?_, ?_, ?_, ?_, ?_, ?_⟩
  · rw [dGetItem]
    simp [hsplit, halias, hcont]
  · norm_num +decide [dContainsF, dContains, aliasFind, freqObj]
  · norm_num +decide [dContainsF, dContains, aliasFind, accObj, parseComposite, parsePart,
      parseMoreToks, parseTok, parseExpTok, spanP, digitsToNat, wsChar, assignToks,
      findAssignable, basicHasUnit, tableFind, decLeft, firstPositive, envD]
  · norm_num +decide [dContainsF, dContains, aliasFind, accObj, parseComposite, parsePart,
      parseMoreToks, parseTok, parseExpTok, spanP, digitsToNat, wsChar, assignToks,
      findAssignable, basicHasUnit, tableFind, decLeft, firstPositive, envD]
  · norm_num +decide [dContainsF, dContains, aliasFind, areaPerTimeObj, parseComposite,
      parsePart, parseMoreToks, parseTok, parseExpTok, spanP, digitsToNat, wsChar,
      assignToks, findAssignable, basicHasUnit, tableFind, decLeft, firstPositive, envD]
  · norm_num +decide [dContainsF, dContains, aliasFind, accObj, parseComposite, parsePart,
      parseMoreToks, parseTok, parseExpTok, spanP, digitsToNat, wsChar, assignToks,
      findAssignable, basicHasUnit, tableFind, decLeft, firstPositive, envD]
  · norm_num +decide [dGetItemF, dGetItem, dContains, aliasFind, accObj, parseComposite,
      parsePart, parseMoreToks, parseTok, parseExpTok, spanP, digitsToNat, wsChar,
      assignToks, findAssignable, basicHasUnit, tableFind, decLeft, firstPositive, envD,
      prodFactor, basicGetF, basicGet, splitAmountArgs, splitAmountList, parseExpSuffix,
      Except.map]
  · norm_num +decide [dGetItemF, dGetItem, dContains, aliasFind, accObj, parseComposite,
      parsePart, parseMoreToks, parseTok, parseExpTok, spanP, digitsToNat, wsChar,
      assignToks, findAssignable, basicHasUnit, tableFind, decLeft, firstPositive, envD,
      prodFactor, basicGetF, basicGet, splitAmountArgs, splitAmountList, parseExpSuffix,
      Except.map]

/-- C7 witness: the generic lookup-raises-the-cause part applied to the
unmatched-name cause at fuel 999. -/
theorem c7_membership_causes_witness :
    dGetItem envD accObj 1000 "zz" = .error (.keyErr "zz") ∧
    dContainsF envD freqObj "hz" = .error (.valueErr "values to unpack (expected 2)") :=
  ⟨((c7_membership_causes envD accObj "zz" 999 (.keyErr "zz")
      (by norm_num +decide [splitAmountArgs, splitAmountList, parseExpSuffix, spanP,
        digitsToNat, wsChar])
      (by norm_num +decide [accObj, aliasFind])
      (by norm_num +decide [dContains, aliasFind, accObj, parseComposite, parsePart,
        parseMoreToks, parseTok, parseExpTok, spanP, digitsToNat, wsChar, assignToks,
        findAssignable, basicHasUnit, tableFind, decLeft, firstPositive, envD])).1),
   ((c7_membership_causes envD accObj "zz" 999 (.keyErr "zz")
      (by norm_num +decide [splitAmountArgs, splitAmountList, parseExpSuffix, spanP,
        digitsToNat, wsChar])
      (by norm_num +decide [accObj, aliasFind])
      (by norm_num +decide [dContains, aliasFind, accObj, parseComposite, parsePart,
        parseMoreToks, parseTok, parseExpTok, spanP, digitsToNat, wsChar, assignToks,
        findAssignable, basicHasUnit, tableFind, decLeft, firstPositive, envD])).2.1)⟩
